import Mathlib

/-!
Shallow embedding of the IBIS buffer-zone analysis engine
(`scripts/buffer_zone.py`, together with the pieces of `scripts/utils.py`
that it uses).

Modelling conventions:
* machine floating-point numbers of the source are modelled by exact
  rationals;
* numpy arrays are modelled by lists (voxel enumeration is row-major, the
  order `np.nonzero` reports indices in);
* pandas data frames are modelled by lists of records;
* Python exceptions are modelled by `Except` values; an exception that the
  source catches (`except Exception`) is turned into the empty list the
  handler returns;
* calls into external libraries (`sklearn.neighbors`, `nilearn.image`,
  `nilearn.masking`, `numpy`) are embedded by their documented semantics at
  exactly the call sites the source uses.
* `np.std` returns the square root of the population variance; square roots
  leave ℚ, so records carry the square of that statistic
  (`std_value_sq`, the population variance itself).  The square root is a
  strictly monotone injection on nonnegative values, so every claim about
  `std_value` (in particular the divisor-n-versus-n−1 question) is captured
  faithfully by its square.
-/

/-- A point of 3-space: world millimetre coordinates, or a voxel index
promoted to rationals.  The source keeps these as float triples. -/
structure Vec3 where
  x : ℚ
  y : ℚ
  z : ℚ
deriving DecidableEq

/-- The voxel-index → world-mm affine of a volume: the top three rows of the
4 × 4 matrix (the bottom row of a NIfTI affine is fixed at 0 0 0 1). -/
structure Affine where
  a00 : ℚ
  a01 : ℚ
  a02 : ℚ
  a03 : ℚ
  a10 : ℚ
  a11 : ℚ
  a12 : ℚ
  a13 : ℚ
  a20 : ℚ
  a21 : ℚ
  a22 : ℚ
  a23 : ℚ
deriving DecidableEq

/-- `nilearn.image.resampling.coord_transform(x, y, z, affine)`: apply the
affine to one point. -/
def coord_transform (A : Affine) (p : Vec3) : Vec3 :=
  ⟨A.a00 * p.x + A.a01 * p.y + A.a02 * p.z + A.a03,
   A.a10 * p.x + A.a11 * p.y + A.a12 * p.z + A.a13,
   A.a20 * p.x + A.a21 * p.y + A.a22 * p.z + A.a23⟩

/-- Squared Euclidean distance between two points. -/
def sqdist (p q : Vec3) : ℚ :=
  (p.x - q.x) ^ 2 + (p.y - q.y) ^ 2 + (p.z - q.z) ^ 2

/-- Euclidean distance ≤ r, encoded without square roots:
`dist p q ≤ r ↔ 0 ≤ r ∧ dist² p q ≤ r²` (a Euclidean distance is
nonnegative).  This is the inclusion test of
`sklearn.neighbors.NearestNeighbors(radius=r).radius_neighbors_graph`. -/
def within_radius (p q : Vec3) (r : ℚ) : Bool :=
  decide (0 ≤ r) && decide (sqdist p q ≤ r ^ 2)

/-- A loaded 3-D scalar image (`nilearn.image.load_img` result): a shape, a
voxel → world affine and a scalar field over voxel indices. -/
structure Niimg where
  n1 : ℕ
  n2 : ℕ
  n3 : ℕ
  affine : Affine
  data : ℕ → ℕ → ℕ → ℚ

/-- A boolean mask volume (`nilearn.masking._load_mask_img` result): a
shape, a voxel → world affine and a boolean field over voxel indices. -/
structure MaskImg where
  n1 : ℕ
  n2 : ℕ
  n3 : ℕ
  affine : Affine
  val : ℕ → ℕ → ℕ → Bool

/-- All voxel indices of a shape in row-major (C) order, the order numpy
enumerates a 3-D array in. -/
def allVoxels (n1 n2 n3 : ℕ) : List (ℕ × ℕ × ℕ) :=
  (List.range n1).flatMap fun i =>
    (List.range n2).flatMap fun j =>
      (List.range n3).map fun k => (i, j, k)

/-- `np.asarray(np.nonzero(mask)).T.tolist()` (first branch) and
`list(zip(*np.where(mask != 0)))` (second branch) of
`_apply_mask_and_get_affinity`: the indices of the active mask voxels, in
row-major order. -/
def maskCoords (m : MaskImg) : List (ℕ × ℕ × ℕ) :=
  (allVoxels m.n1 m.n2 m.n3).filter fun v => m.val v.1 v.2.1 v.2.2

/-- Promote a voxel index triple to a point of 3-space. -/
def vecOfIdx (v : ℕ × ℕ × ℕ) : Vec3 := ⟨(v.1 : ℚ), (v.2.1 : ℚ), (v.2.2 : ℚ)⟩

/-- Determinant of the linear (3 × 3) part of an affine. -/
def detAffine (A : Affine) : ℚ :=
  A.a00 * (A.a11 * A.a22 - A.a12 * A.a21)
    - A.a01 * (A.a10 * A.a22 - A.a12 * A.a20)
    + A.a02 * (A.a10 * A.a21 - A.a11 * A.a20)

/-- Inverse of an affine (`np.linalg.inv` on the 4 × 4 matrix, restricted to
its top three rows): adjugate over determinant for the linear part, and the
correspondingly transformed translation.  `none` models the LinAlgError that
numpy raises on a singular matrix. -/
def invertAffine (A : Affine) : Option Affine :=
  let d := detAffine A
  if d = 0 then none
  else
    let i00 := (A.a11 * A.a22 - A.a12 * A.a21) / d
    let i01 := (A.a02 * A.a21 - A.a01 * A.a22) / d
    let i02 := (A.a01 * A.a12 - A.a02 * A.a11) / d
    let i10 := (A.a12 * A.a20 - A.a10 * A.a22) / d
    let i11 := (A.a00 * A.a22 - A.a02 * A.a20) / d
    let i12 := (A.a02 * A.a10 - A.a00 * A.a12) / d
    let i20 := (A.a10 * A.a21 - A.a11 * A.a20) / d
    let i21 := (A.a01 * A.a20 - A.a00 * A.a21) / d
    let i22 := (A.a00 * A.a11 - A.a01 * A.a10) / d
    some ⟨i00, i01, i02, -(i00 * A.a03 + i01 * A.a13 + i02 * A.a23),
          i10, i11, i12, -(i10 * A.a03 + i11 * A.a13 + i12 * A.a23),
          i20, i21, i22, -(i20 * A.a03 + i21 * A.a13 + i22 * A.a23)⟩

/-- Python exceptions that the embedded code can raise. -/
inductive PyError where
  /-- the explicit `raise ValueError("Either niimg or mask_img must be
  provided")` of `_apply_mask_and_get_affinity` (line 62); other
  ValueErrors raised inside the embedded libraries get constructors of
  their own -/
  | valueError : PyError
  /-- the `ValueError("The mask is invalid as it is empty: it masks all
  data")` that `nilearn.masking._load_mask_img` raises (with its default
  `allow_empty=False`) when the mask volume has no active voxel -/
  | maskEmptyError : PyError
  /-- the `TypeError` that `nilearn.masking._load_mask_img(None)` raises -/
  | typeError : PyError
  /-- `np.linalg.LinAlgError` on a singular affine during resampling -/
  | linAlgError : PyError
deriving DecidableEq

/-- `nilearn.image.resample_img(mask, target_affine, target_shape,
interpolation='nearest')`: identity when the grids already agree, otherwise
nearest-neighbour pullback through the composed affines, with out-of-bounds
source indices mapped to the fill value 0 (inactive).  Ties of the
half-integer kind are rounded up, an edge convention no claim depends on. -/
def resample_img (m : MaskImg) (targetAffine : Affine) (shape : ℕ × ℕ × ℕ) :
    Except PyError MaskImg :=
  if m.affine = targetAffine ∧ (m.n1, m.n2, m.n3) = shape then .ok m
  else
    match invertAffine m.affine with
    | none => .error .linAlgError
    | some minv =>
      .ok { n1 := shape.1, n2 := shape.2.1, n3 := shape.2.2,
            affine := targetAffine,
            val := fun i j k =>
              let src := coord_transform minv
                (coord_transform targetAffine ⟨(i : ℚ), (j : ℚ), (k : ℚ)⟩)
              let si := round src.x
              let sj := round src.y
              let sk := round src.z
              if 0 ≤ si ∧ si < (m.n1 : ℤ) ∧ 0 ≤ sj ∧ sj < (m.n2 : ℤ)
                  ∧ 0 ≤ sk ∧ sk < (m.n3 : ℤ) then
                m.val si.toNat sj.toNat sk.toNat
              else false }

/-- One row of `clf.radius_neighbors_graph(seeds).nonzero()`: the indices
(into the fitted point list, ascending) of the points within Euclidean
distance `r` of one seed. -/
def radius_neighbors_row (points : List Vec3) (seed : Vec3) (r : ℚ) : List ℕ :=
  ((points.enum.filter fun p => within_radius p.2 seed r).map Prod.fst)

/-- The pair `(X, A)` that `_apply_mask_and_get_affinity` returns: `X` is
the (optional) single row of intensity values at the active mask voxels, `A`
holds, per seed, the ascending list of active-voxel indices within the query
radius. -/
structure Affinity where
  X : Option (List ℚ)
  A : List (List ℕ)
deriving DecidableEq

/-- `BufferZoneAnalyzer._apply_mask_and_get_affinity(seeds, niimg, radius,
allow_overlap, mask_img=None)` (buffer_zone.py lines 48–68).
Branch structure of the source:
* `niimg is None`: `masking._load_mask_img(mask_img)` (line 50) validates
  the mask and, with its default `allow_empty=False`, raises ValueError
  when no voxel is active; otherwise the branch yields the world
  coordinates of the active voxels under the mask's own affine, `X = None`;
* `mask_img is not None` (and `niimg` given): the mask is resampled to the
  image grid, then `masking._load_mask_img` (line 57) applies the same
  empty-mask check to the resampled mask; on success, world coordinates use
  the image affine and `X` is `apply_mask(niimg, mask_img)` — the image
  values at the active voxels of the resampled mask, row-major;
* otherwise: `raise ValueError("Either niimg or mask_img must be provided")`
  (line 62);
* both `None`: `masking._load_mask_img(None)` raises a TypeError.
The emptiness test `maskCoords _ = []` below is exactly `_load_mask_img`'s
`not np.any(mask)` condition.  `allow_overlap` is accepted and never
read. -/
def apply_mask_and_get_affinity (seeds : List Vec3) (niimg : Option Niimg)
    (radius : ℚ) (allow_overlap : Bool) (mask_img : Option MaskImg) :
    Except PyError Affinity :=
  match niimg, mask_img with
  | none, none => .error .typeError
  | none, some m =>
    let mask_coords := maskCoords m
    if mask_coords.isEmpty then .error .maskEmptyError
    else
      let world := mask_coords.map fun c => coord_transform m.affine (vecOfIdx c)
      .ok ⟨none, seeds.map fun s => radius_neighbors_row world s radius⟩
  | some img, some m0 =>
    match resample_img m0 img.affine (img.n1, img.n2, img.n3) with
    | .error e => .error e
    | .ok m =>
      let mask_coords := maskCoords m
      if mask_coords.isEmpty then .error .maskEmptyError
      else
        let world := mask_coords.map fun c => coord_transform img.affine (vecOfIdx c)
        let Xrow := mask_coords.map fun c => img.data c.1 c.2.1 c.2.2
        .ok ⟨some Xrow, seeds.map fun s => radius_neighbors_row world s radius⟩
  | some _, none => .error .valueError

/-- `np.mean` of a list of values. -/
def listMean (l : List ℚ) : ℚ := l.sum / l.length

/-- The square of `np.std` of a list of values: the population variance,
mean of squared deviations from the mean (divisor `n`, not `n − 1`). -/
def listVarP (l : List ℚ) : ℚ :=
  ((l.map fun v => (v - listMean l) ^ 2).sum) / l.length

/-- `np.max` of a nonempty list of values (0 on the empty list, which the
source never reaches: the loop guard skips empty matches). -/
def listMax : List ℚ → ℚ
  | [] => 0
  | h :: t => t.foldl max h

/-- `np.min` of a nonempty list of values (0 on the empty list, which the
source never reaches). -/
def listMin : List ℚ → ℚ
  | [] => 0
  | h :: t => t.foldl min h

/-- One output row of `extract_buffer_zone_data`.  The four statistics are
`Option ℚ`: `none` models the `np.nan` missing-value marker used when no
intensity field is available, and `std_value_sq` carries the square of the
source's `std_value` (see the file header). -/
structure BufferZoneRecord where
  seed_id : ℕ
  x : ℚ
  y : ℚ
  z : ℚ
  radius_mm : ℚ
  voxel_count : ℕ
  mean_value : Option ℚ
  std_value_sq : Option ℚ
  max_value : Option ℚ
  min_value : Option ℚ
deriving DecidableEq

/-- The statistics block of the loop body (buffer_zone.py lines 85–90):
with `X` present, mean / std / max / min of `X[:, sphere_voxels]`; without,
four `np.nan` markers. -/
def mkStats : Option (List ℚ) → List ℕ → Option ℚ × Option ℚ × Option ℚ × Option ℚ
  | some xs, sphere_voxels =>
    let sphere_values := sphere_voxels.map fun j => xs.getD j 0
    (some (listMean sphere_values), some (listVarP sphere_values),
     some (listMax sphere_values), some (listMin sphere_values))
  | none, _ => (none, none, none, none)

/-- The body of the per-seed loop of `extract_buffer_zone_data`
(buffer_zone.py lines 81–95) applied to one enumerated seed `(i, seed)`:
`sphere_voxels = A[i].nonzero()[1]`, `continue` when it is empty, otherwise
one result row. -/
def recordOf (aff : Affinity) (radius : ℚ) : ℕ × Vec3 → Option BufferZoneRecord
  | (i, seed) =>
    if (aff.A.getD i []).length = 0 then none
    else
      some { seed_id := i, x := seed.x, y := seed.y, z := seed.z,
             radius_mm := radius, voxel_count := (aff.A.getD i []).length,
             mean_value := (mkStats aff.X (aff.A.getD i [])).1,
             std_value_sq := (mkStats aff.X (aff.A.getD i [])).2.1,
             max_value := (mkStats aff.X (aff.A.getD i [])).2.2.1,
             min_value := (mkStats aff.X (aff.A.getD i [])).2.2.2 }

/-- The full per-seed loop of `extract_buffer_zone_data` (lines 81–95):
`for i, seed in enumerate(seeds)`, collecting the emitted rows in order. -/
def buildRecords (seeds : List Vec3) (aff : Affinity) (radius : ℚ) :
    List BufferZoneRecord :=
  seeds.enum.filterMap (recordOf aff radius)

/-- The `voxel_count` a result table reports for seed ordinal `i`, reading a
seed with no emitted record as count 0. -/
def reportedVoxelCount (records : List BufferZoneRecord) (i : ℕ) : ℕ :=
  ((records.find? fun rec => rec.seed_id == i).map fun rec => rec.voxel_count).getD 0

/-- Brute-force reference count, written from the specification: over all
voxels of the mask grid, count those that are mask-active and whose world
coordinate lies within Euclidean distance `r` of the seed. -/
def bruteForceCount (m : MaskImg) (seed : Vec3) (r : ℚ) : ℕ :=
  ((allVoxels m.n1 m.n2 m.n3).filter fun v =>
      m.val v.1 v.2.1 v.2.2
        && within_radius (coord_transform m.affine (vecOfIdx v)) seed r).length

/-- A parsed coordinate CSV (`pd.read_csv` result): the column names and the
column contents by name. -/
structure CoordTable where
  cols : List String
  col : String → List ℚ

/-- Line 71 of buffer_zone.py, `radius = radius or self.default_radius`:
Python `or` replaces a falsy radius (`None`, `0`, `0.0`) by the default. -/
def resolveRadius : Option ℚ → ℚ → ℚ
  | none, d => d
  | some r, d => if r = 0 then d else r

/-- The required-columns check of `extract_buffer_zone_data` (lines 74–76):
all of `X`, `Y`, `Z` must be present. -/
def requiredColsPresent (t : CoordTable) : Bool :=
  ["X", "Y", "Z"].all fun c => t.cols.contains c

/-- Row-wise zip of three equal-length columns into seed points
(`coords_df[['X', 'Y', 'Z']].values`). -/
def zip3Vec : List ℚ → List ℚ → List ℚ → List Vec3
  | xv :: xs, yv :: ys, zv :: zs => ⟨xv, yv, zv⟩ :: zip3Vec xs ys zs
  | _, _, _ => []

/-- The seed array read from a coordinate table. -/
def seedsOf (t : CoordTable) : List Vec3 :=
  zip3Vec (t.col "X") (t.col "Y") (t.col "Z")

/-- The analyzer configuration: `default_radius` and `allow_overlap` from
the `buffer_zone` settings (lines 34–35), `radius_options` from the buffer
zone YAML (line 106, defaulting to `[default_radius]`). -/
structure BZConfig where
  default_radius : ℚ
  allow_overlap : Bool
  radius_options : List ℚ

/-- The body of `BufferZoneAnalyzer.extract_buffer_zone_data` after the
radius has been resolved (buffer_zone.py lines 72–99).  `none` arguments
model inputs whose read (`pd.read_csv`) or load (`image.load_img`) raises;
the surrounding `except Exception` handler converts every raised error —
including the ValueError that `_apply_mask_and_get_affinity` raises on this
call path, which passes `mask_img=None` — into an empty data frame. -/
def extractWithRadius (cfg : BZConfig) (coordinates_file : Option CoordTable)
    (image_file : Option Niimg) (radius : ℚ) : List BufferZoneRecord :=
  match coordinates_file with
  | none => []
  | some coords_df =>
    if !requiredColsPresent coords_df then []
    else
      match image_file with
      | none => []
      | some img =>
        match apply_mask_and_get_affinity (seedsOf coords_df) (some img) radius
            cfg.allow_overlap none with
        | .error _ => []
        | .ok aff => buildRecords (seedsOf coords_df) aff radius

/-- `BufferZoneAnalyzer.extract_buffer_zone_data(coordinates_file,
image_file, radius)` (buffer_zone.py lines 70–99): line 71,
`radius = radius or self.default_radius`, then the body. -/
def extract_buffer_zone_data (cfg : BZConfig) (coordinates_file : Option CoordTable)
    (image_file : Option Niimg) (radiusArg : Option ℚ) : List BufferZoneRecord :=
  extractWithRadius cfg coordinates_file image_file
    (resolveRadius radiusArg cfg.default_radius)

/-- Code-point comparison of character lists: the lexicographic order
Python's `sorted` uses on strings. -/
def charListLeb : List Char → List Char → Bool
  | [], _ => true
  | _ :: _, [] => false
  | a :: as, b :: bs =>
    if a.toNat < b.toNat then true
    else if b.toNat < a.toNat then false
    else charListLeb as bs

/-- Code-point comparison of strings. -/
def strLeb (a b : String) : Bool := charListLeb a.data b.data

/-- Insert a string into a sorted list of strings. -/
def insertSorted (s : String) : List String → List String
  | [] => [s]
  | t :: ts => if strLeb s t then s :: t :: ts else t :: insertSorted s ts

/-- Python's `sorted` on strings (insertion sort; the comparator is a total
order, so the result is the unique sorted arrangement). -/
def sortStrings : List String → List String
  | [] => []
  | s :: ss => insertSorted s (sortStrings ss)

/-- Python `file.endswith(pattern)`. -/
def strEndsWith (f p : String) : Bool := p.data.isSuffixOf f.data

/-- `utils.get_file_list(directory, file_patterns)` (utils.py lines 84–99):
keep the directory entries ending in one of the patterns, and return them
sorted. -/
def get_file_list (listing : List String) (patterns : List String) : List String :=
  sortStrings (listing.filter fun f => patterns.any fun p => strEndsWith f p)

/-- Leftmost occurrence of four consecutive digits in a character list:
`re.search(r'(\d{4})', filename)`. -/
def findFourDigits : List Char → Option String
  | c1 :: c2 :: c3 :: c4 :: rest =>
    if c1.isDigit && c2.isDigit && c3.isDigit && c4.isDigit then
      some (String.mk [c1, c2, c3, c4])
    else findFourDigits (c2 :: c3 :: c4 :: rest)
  | _ => none

/-- `utils.extract_subject_id(filename, r'(\d{4})')` (utils.py lines
102–108). -/
def extract_subject_id (filename : String) : Option String :=
  findFourDigits filename.data

/-- The file-system surroundings of one batch run: the directory listings
(regular files only) and the per-file contents; `none` content models a file
whose read or load raises. -/
structure Env where
  coordListing : List String
  coordContent : String → Option CoordTable
  imageListing : List String
  imageContent : String → Option Niimg

/-- One row of the final concatenated table: a buffer-zone record with the
`subject_id` column appended (line 112). -/
structure SubjectRecord where
  subject_id : String
  record : BufferZoneRecord
deriving DecidableEq

/-- The body of the outer loop of `process_coordinate_files` for one
coordinate file (buffer_zone.py lines 108–114): skip the file when no
subject id is found, otherwise sweep the configured radii, tagging each
emitted row with the subject id. -/
def perFileRecords (cfg : BZConfig) (env : Env) (default_image : String)
    (coord_file : String) : List SubjectRecord :=
  match extract_subject_id coord_file with
  | none => []
  | some sid =>
    cfg.radius_options.flatMap fun r =>
      (extract_buffer_zone_data cfg (env.coordContent coord_file)
          (env.imageContent default_image) (some r)).map
        fun rec => ⟨sid, rec⟩

/-- `BufferZoneAnalyzer.process_coordinate_files` (buffer_zone.py lines
101–120): the rows of the final concatenated table, in emission order.
The source writes the concatenation to CSV only when it is nonempty; the
rows it would write are exactly this list. -/
def process_coordinate_files (cfg : BZConfig) (env : Env) : List SubjectRecord :=
  let coord_files := get_file_list env.coordListing [".csv"]
  let image_files := get_file_list env.imageListing [".nii.gz", ".nii"]
  if coord_files.isEmpty || image_files.isEmpty then []
  else coord_files.flatMap (perFileRecords cfg env (image_files.headD ""))

/-- A coordinate file that the batch must isolate: unreadable, or readable
but lacking one of the required columns X, Y, Z. -/
def fileUnreadableOrMissingCols (env : Env) (f : String) : Bool :=
  match env.coordContent f with
  | none => true
  | some t => !requiredColsPresent t

/-! ### Inversion lemmas for the embedded operations -/

lemma recordOf_eq_none {aff : Affinity} {radius : ℚ} {i : ℕ} {s : Vec3} :
    recordOf aff radius (i, s) = none ↔ (aff.A.getD i []).length = 0 := by
  constructor
  · intro h
    simp only [recordOf] at h
    split at h
    · assumption
    · exact absurd h (by simp)
  · intro h0
    simp only [recordOf]
    rw [if_pos h0]

lemma recordOf_eq_some {aff : Affinity} {radius : ℚ} {i : ℕ} {s : Vec3}
    {rec : BufferZoneRecord} (h : recordOf aff radius (i, s) = some rec) :
    (aff.A.getD i []).length ≠ 0 ∧
      rec = { seed_id := i, x := s.x, y := s.y, z := s.z, radius_mm := radius,
              voxel_count := (aff.A.getD i []).length,
              mean_value := (mkStats aff.X (aff.A.getD i [])).1,
              std_value_sq := (mkStats aff.X (aff.A.getD i [])).2.1,
              max_value := (mkStats aff.X (aff.A.getD i [])).2.2.1,
              min_value := (mkStats aff.X (aff.A.getD i [])).2.2.2 } := by
  simp only [recordOf] at h
  split at h
  · exact absurd h (by simp)
  · exact ⟨by assumption, (Option.some.inj h).symm⟩

lemma mem_filterMap_recordOf_bounds (aff : Affinity) (radius : ℚ) :
    ∀ (seeds : List Vec3) (n : ℕ) (rec : BufferZoneRecord),
      rec ∈ (List.enumFrom n seeds).filterMap (recordOf aff radius) →
      n ≤ rec.seed_id ∧ rec.seed_id < n + seeds.length := by
  intro seeds
  induction seeds with
  | nil => intro n rec h; simp [List.enumFrom] at h
  | cons s ss ih =>
    intro n rec h
    simp only [List.enumFrom, List.filterMap_cons] at h
    cases hro : recordOf aff radius (n, s) with
    | none =>
      rw [hro] at h
      have := ih (n + 1) rec h
      simp only [List.length_cons]
      omega
    | some r0 =>
      rw [hro] at h
      rcases List.mem_cons.mp h with rfl | htail
      · have hr := (recordOf_eq_some hro).2
        have : rec.seed_id = n := by rw [hr]
        simp only [this, List.length_cons]
        omega
      · have := ih (n + 1) rec htail
        simp only [List.length_cons]
        omega

lemma find?_recordOf_lt (aff : Affinity) (radius : ℚ) (seeds : List Vec3)
    (n i : ℕ) (hi : i < n) :
    ((List.enumFrom n seeds).filterMap (recordOf aff radius)).find?
      (fun rec => rec.seed_id == i) = none := by
  rw [List.find?_eq_none]
  intro rec hrec
  have hb := mem_filterMap_recordOf_bounds aff radius seeds n rec hrec
  simp only [beq_iff_eq]
  omega

lemma reported_aux (aff : Affinity) (radius : ℚ) :
    ∀ (seeds : List Vec3) (n i : ℕ), n ≤ i → i < n + seeds.length →
      reportedVoxelCount ((List.enumFrom n seeds).filterMap (recordOf aff radius)) i
        = (aff.A.getD i []).length := by
  intro seeds
  induction seeds with
  | nil => intro n i h1 h2; simp at h2; omega
  | cons s ss ih =>
    intro n i h1 h2
    simp only [List.enumFrom, List.filterMap_cons]
    cases hro : recordOf aff radius (n, s) with
    | none =>
      rcases Nat.eq_or_lt_of_le h1 with rfl | hlt
      · have h0 := recordOf_eq_none.mp hro
        rw [reportedVoxelCount, find?_recordOf_lt aff radius ss (n + 1) n (by omega)]
        simpa using h0.symm
      · have := ih (n + 1) i hlt (by simp only [List.length_cons] at h2; omega)
        exact this
    | some r0 =>
      have hr := recordOf_eq_some hro
      rcases Nat.eq_or_lt_of_le h1 with rfl | hlt
      · rw [reportedVoxelCount, List.find?_cons_of_pos]
        · simp only [Option.map_some', Option.getD_some]
          rw [hr.2]
        · simp [hr.2]
      · rw [reportedVoxelCount, List.find?_cons_of_neg]
        · have := ih (n + 1) i hlt (by simp only [List.length_cons] at h2; omega)
          rw [reportedVoxelCount] at this
          exact this
        · simp only [beq_iff_eq]
          rw [hr.2]
          simp only
          omega

lemma reported_buildRecords (seeds : List Vec3) (aff : Affinity) (radius : ℚ)
    (i : ℕ) (hi : i < seeds.length) :
    reportedVoxelCount (buildRecords seeds aff radius) i
      = (aff.A.getD i []).length := by
  have : seeds.enum = List.enumFrom 0 seeds := rfl
  rw [buildRecords, this]
  exact reported_aux aff radius seeds 0 i (Nat.zero_le i) (by omega)

lemma reported_buildRecords_ge (seeds : List Vec3) (aff : Affinity) (radius : ℚ)
    (i : ℕ) (hi : seeds.length ≤ i) :
    reportedVoxelCount (buildRecords seeds aff radius) i = 0 := by
  have : seeds.enum = List.enumFrom 0 seeds := rfl
  rw [buildRecords, this, reportedVoxelCount, List.find?_eq_none.mpr]
  · rfl
  · intro rec hrec
    have hb := mem_filterMap_recordOf_bounds aff radius seeds 0 rec hrec
    simp only [beq_iff_eq]
    omega

lemma mem_enumFrom_getD :
    ∀ (l : List Vec3) (n i : ℕ), i < l.length →
      (n + i, l.getD i ⟨0, 0, 0⟩) ∈ List.enumFrom n l := by
  intro l
  induction l with
  | nil => intro n i hi; simp at hi
  | cons s ss ih =>
    intro n i hi
    cases i with
    | zero =>
      simp [List.enumFrom, List.getD_cons_zero]
    | succ j =>
      have hj : j < ss.length := by simp only [List.length_cons] at hi; omega
      have hmem := ih (n + 1) j hj
      have harith : n + (j + 1) = (n + 1) + j := by omega
      rw [harith, List.getD_cons_succ]
      exact List.mem_cons_of_mem _ hmem

lemma enumFrom_mem_getD :
    ∀ (l : List Vec3) (n i : ℕ) (s : Vec3), (i, s) ∈ List.enumFrom n l →
      n ≤ i ∧ i - n < l.length ∧ l.getD (i - n) ⟨0, 0, 0⟩ = s := by
  intro l
  induction l with
  | nil => intro n i s h; simp [List.enumFrom] at h
  | cons t ts ih =>
    intro n i s h
    simp only [List.enumFrom] at h
    rcases List.mem_cons.mp h with heq | htail
    · have h1 : i = n := congrArg Prod.fst heq
      have h2 : s = t := congrArg Prod.snd heq
      subst h1; subst h2
      simp
    · obtain ⟨ha, hb, hc⟩ := ih (n + 1) i s htail
      refine ⟨by omega, by simp only [List.length_cons]; omega, ?_⟩
      have harith : i - n = (i - (n + 1)) + 1 := by omega
      rw [harith, List.getD_cons_succ]
      exact hc

lemma countP_enumFrom_snd {α : Type} (p : α → Bool) :
    ∀ (l : List α) (n : ℕ),
      (List.enumFrom n l).countP (fun x => p x.2) = l.countP p := by
  intro l
  induction l with
  | nil => intro n; simp [List.enumFrom]
  | cons a t ih =>
    intro n
    simp only [List.enumFrom, List.countP_cons, ih]

lemma radius_neighbors_row_length (points : List Vec3) (seed : Vec3) (r : ℚ) :
    (radius_neighbors_row points seed r).length
      = points.countP fun p => within_radius p seed r := by
  unfold radius_neighbors_row
  rw [List.length_map, ← List.countP_eq_length_filter]
  exact countP_enumFrom_snd (fun v => within_radius v seed r) points 0

lemma getD_map' {α β : Type} (f : α → β) (dα : α) (dβ : β) :
    ∀ (l : List α) (i : ℕ), i < l.length → (l.map f).getD i dβ = f (l.getD i dα) := by
  intro l
  induction l with
  | nil => intro i h; simp at h
  | cons a t ih =>
    intro i h
    cases i with
    | zero => simp
    | succ j =>
      simp only [List.map_cons, List.getD_cons_succ]
      exact ih j (by simp only [List.length_cons] at h; omega)

lemma apply_mask_none_ok {seeds : List Vec3} {m : MaskImg} {radius : ℚ}
    {ao : Bool} {aff : Affinity}
    (h : apply_mask_and_get_affinity seeds none radius ao (some m) = .ok aff) :
    maskCoords m ≠ [] ∧
      aff = ⟨none, seeds.map fun s =>
        radius_neighbors_row
          ((maskCoords m).map fun c => coord_transform m.affine (vecOfIdx c))
          s radius⟩ := by
  simp only [apply_mask_and_get_affinity] at h
  split at h
  · exact absurd h (by simp)
  · next he => exact ⟨by simpa using he, (Except.ok.inj h).symm⟩

lemma resample_ok_affine {m0 : MaskImg} {A : Affine} {sh : ℕ × ℕ × ℕ}
    {m : MaskImg} (h : resample_img m0 A sh = .ok m) : m.affine = A := by
  simp only [resample_img] at h
  split at h
  · next hc => rw [← Except.ok.inj h]; exact hc.1
  · split at h
    · exact absurd h (by simp)
    · rw [← Except.ok.inj h]

lemma resample_error_eq {m0 : MaskImg} {A : Affine} {sh : ℕ × ℕ × ℕ}
    {e : PyError} (h : resample_img m0 A sh = .error e) : e = .linAlgError := by
  simp only [resample_img] at h
  split at h
  · exact absurd h (by simp)
  · split at h
    · exact (Except.error.inj h).symm
    · exact absurd h (by simp)

lemma apply_mask_some_ok {seeds : List Vec3} {img : Niimg} {m0 m : MaskImg}
    {radius : ℚ} {ao : Bool} {aff : Affinity}
    (hres : resample_img m0 img.affine (img.n1, img.n2, img.n3) = .ok m)
    (h : apply_mask_and_get_affinity seeds (some img) radius ao (some m0) = .ok aff) :
    maskCoords m ≠ [] ∧
      aff = ⟨some ((maskCoords m).map fun c => img.data c.1 c.2.1 c.2.2),
             seeds.map fun s =>
               radius_neighbors_row
                 ((maskCoords m).map fun c => coord_transform img.affine (vecOfIdx c))
                 s radius⟩ := by
  simp only [apply_mask_and_get_affinity] at h
  rw [hres] at h
  dsimp only at h
  split at h
  · exact absurd h (by simp)
  · next he => exact ⟨by simpa using he, (Except.ok.inj h).symm⟩

lemma apply_mask_valueError (seeds : List Vec3) (img : Niimg) (radius : ℚ)
    (ao : Bool) :
    apply_mask_and_get_affinity seeds (some img) radius ao none
      = .error .valueError := rfl

/-- On the only call path the source exercises — `niimg` given, `mask_img`
left at `None` — the helper raises, the handler catches, and the function
returns an empty table: for every input whatsoever the result is empty. -/
lemma extract_always_empty (cfg : BZConfig) (coordinates_file : Option CoordTable)
    (image_file : Option Niimg) (radiusArg : Option ℚ) :
    extract_buffer_zone_data cfg coordinates_file image_file radiusArg = [] := by
  unfold extract_buffer_zone_data extractWithRadius
  cases coordinates_file with
  | none => rfl
  | some t =>
    by_cases hc : requiredColsPresent t
    · simp only [hc]
      cases image_file with
      | none => simp
      | some img => simp [apply_mask_valueError]
    · simp [hc]

/-! ### Statistics lemmas -/

lemma sum_map_sq_sub (μ : ℚ) :
    ∀ l : List ℚ,
      (l.map fun v => (v - μ) ^ 2).sum
        = (l.map fun v => v ^ 2).sum - 2 * μ * l.sum + l.length * μ ^ 2 := by
  intro l
  induction l with
  | nil => simp
  | cons a t ih =>
    simp only [List.map_cons, List.sum_cons, ih, List.length_cons]
    push_cast
    ring

lemma length_cast_ne_zero {l : List ℚ} (h : l ≠ []) : (l.length : ℚ) ≠ 0 := by
  have := List.length_pos.mpr h
  exact_mod_cast Nat.pos_iff_ne_zero.mp this

lemma listMean_spec {l : List ℚ} (h : l ≠ []) : listMean l * l.length = l.sum := by
  unfold listMean
  exact div_mul_cancel₀ _ (length_cast_ne_zero h)

lemma listVarP_spec {l : List ℚ} (h : l ≠ []) :
    listVarP l * (l.length : ℚ) ^ 2
      = l.length * (l.map fun v => v ^ 2).sum - l.sum ^ 2 := by
  have hn := length_cast_ne_zero h
  unfold listVarP listMean
  rw [sum_map_sq_sub]
  field_simp
  ring

lemma foldl_max_mem : ∀ (t : List ℚ) (a : ℚ), t.foldl max a = a ∨ t.foldl max a ∈ t := by
  intro t
  induction t with
  | nil => intro a; left; rfl
  | cons b t ih =>
    intro a
    rcases ih (max a b) with h | h
    · rcases max_choice a b with hm | hm
      · left; rw [List.foldl_cons, h, hm]
      · right; rw [List.foldl_cons, h, hm]; exact List.mem_cons_self _ _
    · right; exact List.mem_cons_of_mem _ h

lemma le_foldl_max : ∀ (t : List ℚ) (a : ℚ),
    a ≤ t.foldl max a ∧ ∀ v ∈ t, v ≤ t.foldl max a := by
  intro t
  induction t with
  | nil => intro a; exact ⟨le_refl _, by simp⟩
  | cons b t ih =>
    intro a
    obtain ⟨h1, h2⟩ := ih (max a b)
    refine ⟨le_trans (le_max_left a b) h1, ?_⟩
    intro v hv
    rcases List.mem_cons.mp hv with rfl | hv
    · exact le_trans (le_max_right a v) h1
    · exact h2 v hv

lemma listMax_spec {l : List ℚ} (h : l ≠ []) :
    listMax l ∈ l ∧ ∀ v ∈ l, v ≤ listMax l := by
  cases l with
  | nil => exact absurd rfl h
  | cons a t =>
    simp only [listMax]
    constructor
    · rcases foldl_max_mem t a with h1 | h1
      · rw [h1]; exact List.mem_cons_self _ _
      · exact List.mem_cons_of_mem _ h1
    · intro v hv
      rcases List.mem_cons.mp hv with rfl | hv
      · exact (le_foldl_max t v).1
      · exact (le_foldl_max t a).2 v hv

lemma foldl_min_mem : ∀ (t : List ℚ) (a : ℚ), t.foldl min a = a ∨ t.foldl min a ∈ t := by
  intro t
  induction t with
  | nil => intro a; left; rfl
  | cons b t ih =>
    intro a
    rcases ih (min a b) with h | h
    · rcases min_choice a b with hm | hm
      · left; rw [List.foldl_cons, h, hm]
      · right; rw [List.foldl_cons, h, hm]; exact List.mem_cons_self _ _
    · right; exact List.mem_cons_of_mem _ h

lemma foldl_min_le : ∀ (t : List ℚ) (a : ℚ),
    t.foldl min a ≤ a ∧ ∀ v ∈ t, t.foldl min a ≤ v := by
  intro t
  induction t with
  | nil => intro a; exact ⟨le_refl _, by simp⟩
  | cons b t ih =>
    intro a
    obtain ⟨h1, h2⟩ := ih (min a b)
    refine ⟨le_trans h1 (min_le_left a b), ?_⟩
    intro v hv
    rcases List.mem_cons.mp hv with rfl | hv
    · exact le_trans h1 (min_le_right a v)
    · exact h2 v hv

lemma listMin_spec {l : List ℚ} (h : l ≠ []) :
    listMin l ∈ l ∧ ∀ v ∈ l, listMin l ≤ v := by
  cases l with
  | nil => exact absurd rfl h
  | cons a t =>
    simp only [listMin]
    constructor
    · rcases foldl_min_mem t a with h1 | h1
      · rw [h1]; exact List.mem_cons_self _ _
      · exact List.mem_cons_of_mem _ h1
    · intro v hv
      rcases List.mem_cons.mp hv with rfl | hv
      · exact (foldl_min_le t v).1
      · exact (foldl_min_le t a).2 v hv

/-! ### Ordering lemmas -/

lemma charListLeb_total : ∀ a b : List Char,
    charListLeb a b = true ∨ charListLeb b a = true := by
  intro a
  induction a with
  | nil => intro b; left; rfl
  | cons c cs ih =>
    intro b
    cases b with
    | nil => right; rfl
    | cons d ds =>
      by_cases h1 : c.toNat < d.toNat
      · left; simp only [charListLeb]; rw [if_pos h1]
      · by_cases h2 : d.toNat < c.toNat
        · right; simp only [charListLeb]; rw [if_pos h2]
        · rcases ih ds with h | h
          · left; simp only [charListLeb]; rw [if_neg h1, if_neg h2]; exact h
          · right; simp only [charListLeb]; rw [if_neg h2, if_neg h1]; exact h

lemma charListLeb_trans : ∀ a b c : List Char,
    charListLeb a b = true → charListLeb b c = true → charListLeb a c = true := by
  intro a
  induction a with
  | nil => intro b c _ _; rfl
  | cons x xs ih =>
    intro b c hab hbc
    cases b with
    | nil => simp [charListLeb] at hab
    | cons y ys =>
      cases c with
      | nil => simp [charListLeb] at hbc
      | cons z zs =>
        simp only [charListLeb] at hab hbc ⊢
        by_cases hxy : x.toNat < y.toNat
        · by_cases hyz : y.toNat < z.toNat
          · rw [if_pos (show x.toNat < z.toNat by omega)]
          · by_cases hzy : z.toNat < y.toNat
            · rw [if_neg hyz, if_pos hzy] at hbc; exact absurd hbc (by simp)
            · rw [if_pos (show x.toNat < z.toNat by omega)]
        · by_cases hyx : y.toNat < x.toNat
          · rw [if_neg hxy, if_pos hyx] at hab; exact absurd hab (by simp)
          · rw [if_neg hxy, if_neg hyx] at hab
            by_cases hyz : y.toNat < z.toNat
            · rw [if_pos (show x.toNat < z.toNat by omega)]
            · by_cases hzy : z.toNat < y.toNat
              · rw [if_neg hyz, if_pos hzy] at hbc; exact absurd hbc (by simp)
              · rw [if_neg hyz, if_neg hzy] at hbc
                rw [if_neg (show ¬x.toNat < z.toNat by omega),
                  if_neg (show ¬z.toNat < x.toNat by omega)]
                exact ih ys zs hab hbc

lemma strLeb_total (a b : String) : strLeb a b = true ∨ strLeb b a = true :=
  charListLeb_total a.data b.data

lemma strLeb_trans {a b c : String} (h1 : strLeb a b = true)
    (h2 : strLeb b c = true) : strLeb a c = true :=
  charListLeb_trans a.data b.data c.data h1 h2

lemma mem_insertSorted : ∀ (l : List String) (s x : String),
    x ∈ insertSorted s l → x = s ∨ x ∈ l := by
  intro l
  induction l with
  | nil =>
    intro s x h
    simp only [insertSorted] at h
    exact Or.inl (List.mem_singleton.mp h)
  | cons t ts ih =>
    intro s x h
    simp only [insertSorted] at h
    by_cases hc : strLeb s t = true
    · rw [if_pos hc] at h
      rcases List.mem_cons.mp h with rfl | h2
      · exact Or.inl rfl
      · exact Or.inr h2
    · rw [if_neg hc] at h
      rcases List.mem_cons.mp h with rfl | h2
      · exact Or.inr (List.mem_cons_self _ _)
      · rcases ih s x h2 with h3 | h3
        · exact Or.inl h3
        · exact Or.inr (List.mem_cons_of_mem _ h3)

lemma pairwise_insertSorted : ∀ (l : List String) (s : String),
    l.Pairwise (fun a b => strLeb a b = true) →
    (insertSorted s l).Pairwise (fun a b => strLeb a b = true) := by
  intro l
  induction l with
  | nil => intro s _; simp [insertSorted]
  | cons t ts ih =>
    intro s hp
    rcases List.pairwise_cons.mp hp with ⟨ht, hts⟩
    simp only [insertSorted]
    by_cases hc : strLeb s t = true
    · rw [if_pos hc]
      refine List.pairwise_cons.mpr ⟨?_, hp⟩
      intro b hb
      rcases List.mem_cons.mp hb with rfl | hb2
      · exact hc
      · exact strLeb_trans hc (ht b hb2)
    · rw [if_neg hc]
      refine List.pairwise_cons.mpr ⟨?_, ih s hts⟩
      intro b hb
      rcases mem_insertSorted ts s b hb with rfl | hb2
      · rcases strLeb_total b t with h | h
        · exact absurd h hc
        · exact h
      · exact ht b hb2

lemma sortStrings_pairwise : ∀ l : List String,
    (sortStrings l).Pairwise (fun a b => strLeb a b = true) := by
  intro l
  induction l with
  | nil => simp [sortStrings]
  | cons s ss ih =>
    simp only [sortStrings]
    exact pairwise_insertSorted _ s ih

lemma buildRecords_seedIds_pairwise (aff : Affinity) (radius : ℚ) :
    ∀ (seeds : List Vec3) (n : ℕ),
      (((List.enumFrom n seeds).filterMap (recordOf aff radius)).map
          fun rec => rec.seed_id).Pairwise (· < ·) := by
  intro seeds
  induction seeds with
  | nil => intro n; simp [List.enumFrom]
  | cons s ss ih =>
    intro n
    simp only [List.enumFrom, List.filterMap_cons]
    cases hro : recordOf aff radius (n, s) with
    | none => exact ih (n + 1)
    | some r0 =>
      simp only [List.map_cons]
      refine List.pairwise_cons.mpr ⟨?_, ih (n + 1)⟩
      intro b hb
      rcases List.mem_map.mp hb with ⟨rec, hrec, rfl⟩
      have hb2 := mem_filterMap_recordOf_bounds aff radius ss (n + 1) rec hrec
      have h0 : r0.seed_id = n := by rw [(recordOf_eq_some hro).2]
      omega

/-! ### Batch-structure lemmas -/

lemma flatMap_const_nil {α β : Type} : ∀ l : List α,
    (l.flatMap fun _ => ([] : List β)) = [] := by
  intro l
  induction l with
  | nil => rfl
  | cons a t ih => simp only [List.flatMap_cons, ih, List.nil_append]

lemma flatMap_filter_ne {β : Type} (g : String → List β) (x : String)
    (hg : g x = []) :
    ∀ l : List String, l.flatMap g = (l.filter fun f => f != x).flatMap g := by
  intro l
  induction l with
  | nil => rfl
  | cons a t ih =>
    by_cases ha : a = x
    · subst ha
      rw [List.flatMap_cons, hg, List.nil_append, ih, List.filter_cons]
      simp
    · rw [List.flatMap_cons, ih, List.filter_cons]
      have hb : (a != x) = true := bne_iff_ne.mpr ha
      rw [hb]
      simp only [if_true, List.flatMap_cons]

lemma perFileRecords_of_bad (cfg : BZConfig) (env : Env) (dimg : String)
    (f : String) (hbad : fileUnreadableOrMissingCols env f = true) :
    perFileRecords cfg env dimg f = [] := by
  unfold perFileRecords
  cases hsid : extract_subject_id f with
  | none => rfl
  | some sid =>
    unfold fileUnreadableOrMissingCols at hbad
    cases hcc : env.coordContent f with
    | none =>
      have hext : ∀ r : ℚ,
          extract_buffer_zone_data cfg none (env.imageContent dimg) (some r) = [] :=
        fun r => rfl
      simp only [hcc, hext, List.map_nil]
      exact flatMap_const_nil _
    | some t =>
      rw [hcc] at hbad
      have hreq : requiredColsPresent t = false := by simpa using hbad
      have hext : ∀ r : ℚ,
          extract_buffer_zone_data cfg (some t) (env.imageContent dimg) (some r) = [] := by
        intro r
        unfold extract_buffer_zone_data extractWithRadius
        simp [hreq]
      simp only [hcc, hext, List.map_nil]
      exact flatMap_const_nil _

lemma count_row_eq_brute (m : MaskImg) (A : Affine) (seed : Vec3) (r : ℚ) :
    (radius_neighbors_row
        ((maskCoords m).map fun c => coord_transform A (vecOfIdx c)) seed r).length
      = ((allVoxels m.n1 m.n2 m.n3).filter fun v =>
          m.val v.1 v.2.1 v.2.2
            && within_radius (coord_transform A (vecOfIdx v)) seed r).length := by
  rw [radius_neighbors_row_length, List.countP_map]
  unfold maskCoords
  rw [List.countP_filter, ← List.countP_eq_length_filter]
  congr 1
  funext v
  simp [Function.comp, Bool.and_comm]

lemma within_radius_mono {p q : Vec3} {r1 r2 : ℚ} (h : r1 ≤ r2)
    (hw : within_radius p q r1 = true) : within_radius p q r2 = true := by
  unfold within_radius at hw ⊢
  simp only [Bool.and_eq_true, decide_eq_true_eq] at hw ⊢
  obtain ⟨h0, hd⟩ := hw
  exact ⟨le_trans h0 h, le_trans hd (pow_le_pow_left h0 h 2)⟩

/-! ### The claims -/

/-- C1: for every volumetric image, mask, seed and radius R > 0, the
voxel_count reported for a seed equals the brute-force count of mask-active
voxels whose Euclidean world-mm distance to the seed is at most R.  The
first conjunct covers the mask-only branch of `_apply_mask_and_get_affinity`
(the mask is used on its own grid); the second covers the image-plus-mask
branch, in which the counted domain is the mask resampled onto the image
grid (the aligned mask the specification's Spatial Index is built from). -/
theorem C1_voxel_count_equals_bruteforce (R : ℚ) (hR : 0 < R)
    (seeds : List Vec3) (ao : Bool) :
    (∀ (m : MaskImg) (aff : Affinity),
        apply_mask_and_get_affinity seeds none R ao (some m) = .ok aff →
        ∀ i < seeds.length,
          reportedVoxelCount (buildRecords seeds aff R) i
            = bruteForceCount m (seeds.getD i ⟨0, 0, 0⟩) R)
    ∧ (∀ (img : Niimg) (m0 m : MaskImg) (aff : Affinity),
        resample_img m0 img.affine (img.n1, img.n2, img.n3) = .ok m →
        apply_mask_and_get_affinity seeds (some img) R ao (some m0) = .ok aff →
        ∀ i < seeds.length,
          reportedVoxelCount (buildRecords seeds aff R) i
            = bruteForceCount m (seeds.getD i ⟨0, 0, 0⟩) R) := by
  constructor
  · intro m aff hok i hi
    obtain ⟨hne, rfl⟩ := apply_mask_none_ok hok
    rw [reported_buildRecords _ _ _ i hi]
    dsimp only
    rw [getD_map' _ ⟨0, 0, 0⟩ [] seeds i hi]
    unfold bruteForceCount
    exact count_row_eq_brute m m.affine _ R
  · intro img m0 m aff hres hok i hi
    obtain ⟨hne, rfl⟩ := apply_mask_some_ok hres hok
    rw [reported_buildRecords _ _ _ i hi]
    dsimp only
    rw [getD_map' _ ⟨0, 0, 0⟩ [] seeds i hi]
    unfold bruteForceCount
    rw [resample_ok_affine hres]
    exact count_row_eq_brute m img.affine _ R

/-- C7: with the seeds and the mask fixed, the voxel_count reported for any
seed (0 when no record is emitted for it) is monotonically non-decreasing in
the query radius. -/
theorem C7_voxel_count_monotone_in_radius (m : MaskImg) (seeds : List Vec3)
    (r1 r2 : ℚ) (a1 a2 : Bool) (aff1 aff2 : Affinity)
    (h12 : r1 ≤ r2)
    (h1 : apply_mask_and_get_affinity seeds none r1 a1 (some m) = .ok aff1)
    (h2 : apply_mask_and_get_affinity seeds none r2 a2 (some m) = .ok aff2)
    (i : ℕ) :
    reportedVoxelCount (buildRecords seeds aff1 r1) i
      ≤ reportedVoxelCount (buildRecords seeds aff2 r2) i := by
  obtain ⟨hne1, rfl⟩ := apply_mask_none_ok h1
  obtain ⟨hne2, rfl⟩ := apply_mask_none_ok h2
  by_cases hi : i < seeds.length
  · rw [reported_buildRecords _ _ _ i hi, reported_buildRecords _ _ _ i hi]
    dsimp only
    rw [getD_map' _ ⟨0, 0, 0⟩ [] seeds i hi, getD_map' _ ⟨0, 0, 0⟩ [] seeds i hi]
    rw [radius_neighbors_row_length, radius_neighbors_row_length]
    exact List.countP_mono_left fun x _ hx => within_radius_mono h12 hx
  · rw [reported_buildRecords_ge _ _ _ i (by omega),
      reported_buildRecords_ge _ _ _ i (by omega)]

/-- C2: the helper raises its ValueError exactly when `niimg` is given and
`mask_img` is left at None — which is precisely how
`extract_buffer_zone_data` always invokes it — and the surrounding handler
turns that exception into an empty result table, so this call path emits
zero records for every coordinate file with valid X, Y, Z columns and every
loadable image. -/
theorem C2_extract_path_always_empty :
    (∀ (seeds : List Vec3) (niimg : Option Niimg) (radius : ℚ) (ao : Bool)
        (mask_img : Option MaskImg),
        apply_mask_and_get_affinity seeds niimg radius ao mask_img
            = .error .valueError
          ↔ (niimg ≠ none ∧ mask_img = none))
    ∧ ∀ (cfg : BZConfig) (t : CoordTable) (img : Niimg) (radiusArg : Option ℚ),
        requiredColsPresent t = true →
        extract_buffer_zone_data cfg (some t) (some img) radiusArg = [] := by
  constructor
  · intro seeds niimg radius ao mask_img
    cases niimg with
    | none =>
      cases mask_img with
      | none => simp [apply_mask_and_get_affinity]
      | some m =>
        simp only [apply_mask_and_get_affinity]
        constructor
        · intro h
          split at h
          · exact absurd (Except.error.inj h) (by simp)
          · exact absurd h (by simp)
        · rintro ⟨h, -⟩
          exact absurd rfl h
    | some img =>
      cases mask_img with
      | none => simp [apply_mask_and_get_affinity]
      | some m0 =>
        simp only [apply_mask_and_get_affinity]
        constructor
        · intro h
          cases hres : resample_img m0 img.affine (img.n1, img.n2, img.n3) with
          | error e =>
            rw [hres] at h
            dsimp only at h
            have he := Except.error.inj h
            rw [resample_error_eq hres] at he
            exact absurd he (by simp)
          | ok m =>
            rw [hres] at h
            dsimp only at h
            split at h
            · exact absurd (Except.error.inj h) (by simp)
            · exact absurd h (by simp)
        · rintro ⟨-, h⟩
          exact absurd h (by simp)
  · intro cfg t img radiusArg hcols
    exact extract_always_empty cfg (some t) (some img) radiusArg

/-- C3: a record is emitted for seed ordinal i exactly when at least one
mask voxel is matched for it, and every emitted record has voxel_count ≥ 1 —
a seed with an empty matched set contributes no row at all (the embedded
aggregation is a total function, so the empty outcome raises nothing). -/
theorem C3_record_iff_matched (seeds : List Vec3) (aff : Affinity)
    (radius : ℚ) (i : ℕ) (hi : i < seeds.length) :
    ((∃ rec ∈ buildRecords seeds aff radius, rec.seed_id = i)
        ↔ 1 ≤ (aff.A.getD i []).length)
      ∧ ∀ rec ∈ buildRecords seeds aff radius, 1 ≤ rec.voxel_count := by
  constructor
  · constructor
    · rintro ⟨rec, hrec, rfl⟩
      rcases List.mem_filterMap.mp hrec with ⟨⟨j, s⟩, hmem, hro⟩
      obtain ⟨hne, hre⟩ := recordOf_eq_some hro
      have hj : rec.seed_id = j := by rw [hre]
      rw [hj]
      omega
    · intro hlen
      have hne : ¬(aff.A.getD i []).length = 0 := by omega
      refine ⟨{ seed_id := i, x := (seeds.getD i ⟨0, 0, 0⟩).x,
                y := (seeds.getD i ⟨0, 0, 0⟩).y, z := (seeds.getD i ⟨0, 0, 0⟩).z,
                radius_mm := radius, voxel_count := (aff.A.getD i []).length,
                mean_value := (mkStats aff.X (aff.A.getD i [])).1,
                std_value_sq := (mkStats aff.X (aff.A.getD i [])).2.1,
                max_value := (mkStats aff.X (aff.A.getD i [])).2.2.1,
                min_value := (mkStats aff.X (aff.A.getD i [])).2.2.2 },
        List.mem_filterMap.mpr ⟨(i, seeds.getD i ⟨0, 0, 0⟩), ?_, ?_⟩, rfl⟩
      · have := mem_enumFrom_getD seeds 0 i hi
        simpa using this
      · simp only [recordOf]
        rw [if_neg hne]
  · intro rec hrec
    rcases List.mem_filterMap.mp hrec with ⟨⟨j, s⟩, hmem, hro⟩
    obtain ⟨hne, hre⟩ := recordOf_eq_some hro
    have hv : rec.voxel_count = (aff.A.getD j []).length := by rw [hre]
    omega

/-- The 3-D identity affine (unit spacing, zero offset). -/
def idAffine : Affine := ⟨1, 0, 0, 0, 0, 1, 0, 0, 0, 0, 1, 0⟩

/-- A mask volume with zero active voxels. -/
def emptyMask : MaskImg := ⟨1, 1, 1, idAffine, fun _ _ _ => false⟩

/-- C5: contrary to the specification's requirement that index construction
over a mask with zero active voxels must not crash, the source raises
there: `masking._load_mask_img` (called at the top of the branch, with its
default `allow_empty=False`) raises `ValueError("The mask is invalid as it
is empty: it masks all data")` on an all-zero mask, before any spatial
index is built or queried. -/
theorem C5_empty_mask_raises_valueError :
    apply_mask_and_get_affinity [⟨0, 0, 0⟩] none 5 false (some emptyMask)
      = .error .maskEmptyError := rfl

lemma apply_ao_irrel (seeds : List Vec3) (niimg : Option Niimg) (radius : ℚ)
    (a1 a2 : Bool) (mask_img : Option MaskImg) :
    apply_mask_and_get_affinity seeds niimg radius a1 mask_img
      = apply_mask_and_get_affinity seeds niimg radius a2 mask_img := by
  cases niimg <;> cases mask_img <;> rfl

lemma perFile_ao_irrel (cfg : BZConfig) (env : Env) (b1 b2 : Bool)
    (d f : String) :
    perFileRecords { cfg with allow_overlap := b1 } env d f
      = perFileRecords { cfg with allow_overlap := b2 } env d f := by
  unfold perFileRecords
  cases extract_subject_id f with
  | none => rfl
  | some sid =>
    simp only [extract_always_empty, List.map_nil]

/-- C6: the allow_overlap flag is stored at construction and never
consulted: the helper's result is independent of it (second conjunct), two
configurations differing only in the flag produce identical final tables
(first conjunct), and each seed's sphere is computed independently of all
other seeds — querying a concatenation of seed lists yields exactly the
concatenation of the per-list rows (third conjunct). -/
theorem C6_allow_overlap_never_consulted :
    (∀ (cfg : BZConfig) (env : Env) (b1 b2 : Bool),
        process_coordinate_files { cfg with allow_overlap := b1 } env
          = process_coordinate_files { cfg with allow_overlap := b2 } env)
    ∧ (∀ (seeds : List Vec3) (niimg : Option Niimg) (radius : ℚ)
        (a1 a2 : Bool) (mask_img : Option MaskImg),
        apply_mask_and_get_affinity seeds niimg radius a1 mask_img
          = apply_mask_and_get_affinity seeds niimg radius a2 mask_img)
    ∧ (∀ (s1 s2 : List Vec3) (m : MaskImg) (radius : ℚ) (ao : Bool)
        (aff1 aff2 : Affinity),
        apply_mask_and_get_affinity s1 none radius ao (some m) = .ok aff1 →
        apply_mask_and_get_affinity s2 none radius ao (some m) = .ok aff2 →
        apply_mask_and_get_affinity (s1 ++ s2) none radius ao (some m)
          = .ok ⟨aff1.X, aff1.A ++ aff2.A⟩) := by
  refine ⟨?_, apply_ao_irrel, ?_⟩
  · intro cfg env b1 b2
    unfold process_coordinate_files
    have h : ∀ d, perFileRecords { cfg with allow_overlap := b1 } env d
        = perFileRecords { cfg with allow_overlap := b2 } env d :=
      fun d => funext fun f => perFile_ao_irrel cfg env b1 b2 d f
    dsimp only
    rw [h]
  · intro s1 s2 m radius ao aff1 aff2 h1 h2
    obtain ⟨hne, rfl⟩ := apply_mask_none_ok h1
    obtain ⟨-, rfl⟩ := apply_mask_none_ok h2
    simp only [apply_mask_and_get_affinity]
    rw [if_neg (by simpa using hne)]
    rw [List.map_append]

/-- C8: for every emitted record, voxel_count is the number of matched
voxels, and — when an intensity row X is supplied — mean_value is the mean
(characterised product-free: mean · n = sum), std is the population standard
deviation (characterised through its square: var · n² = n·Σv² − (Σv)², the
divisor-n form; the sample variant with divisor n−1 would violate this
identity), and max/min are attained elements bounding all matched values.
When no intensity row is supplied, all four statistics are the
missing-value marker `none` (the embedded np.nan) — not zero — while
voxel_count is still the matched count. -/
theorem C8_statistics_of_matched_voxels :
    (∀ (seeds : List Vec3) (xs : List ℚ) (A : List (List ℕ)) (radius : ℚ)
        (rec : BufferZoneRecord),
        rec ∈ buildRecords seeds ⟨some xs, A⟩ radius →
        rec.voxel_count
            = ((A.getD rec.seed_id []).map fun j => xs.getD j 0).length
          ∧ 1 ≤ rec.voxel_count
          ∧ (∃ mv, rec.mean_value = some mv
              ∧ mv * (rec.voxel_count : ℚ)
                  = ((A.getD rec.seed_id []).map fun j => xs.getD j 0).sum)
          ∧ (∃ sv, rec.std_value_sq = some sv
              ∧ sv * ((A.getD rec.seed_id []).length : ℚ) ^ 2
                  = ((A.getD rec.seed_id []).length : ℚ)
                      * (((A.getD rec.seed_id []).map fun j => xs.getD j 0).map
                          fun v => v ^ 2).sum
                    - ((A.getD rec.seed_id []).map fun j => xs.getD j 0).sum ^ 2)
          ∧ (∃ Mv, rec.max_value = some Mv
              ∧ Mv ∈ ((A.getD rec.seed_id []).map fun j => xs.getD j 0)
              ∧ ∀ v ∈ (A.getD rec.seed_id []).map fun j => xs.getD j 0, v ≤ Mv)
          ∧ (∃ mv, rec.min_value = some mv
              ∧ mv ∈ ((A.getD rec.seed_id []).map fun j => xs.getD j 0)
              ∧ ∀ v ∈ (A.getD rec.seed_id []).map fun j => xs.getD j 0, mv ≤ v))
    ∧ (∀ (seeds : List Vec3) (A : List (List ℕ)) (radius : ℚ)
        (rec : BufferZoneRecord),
        rec ∈ buildRecords seeds ⟨none, A⟩ radius →
        rec.voxel_count = (A.getD rec.seed_id []).length
          ∧ rec.mean_value = none ∧ rec.std_value_sq = none
          ∧ rec.max_value = none ∧ rec.min_value = none) := by
  constructor
  · intro seeds xs A radius rec hrec
    rcases List.mem_filterMap.mp hrec with ⟨⟨j, s⟩, hmem, hro⟩
    obtain ⟨hne, hre⟩ := recordOf_eq_some hro
    have hvc : rec.voxel_count = (A.getD j []).length := by rw [hre]
    have hsid : rec.seed_id = j := by rw [hre]
    have hne' : (A.getD j []).length ≠ 0 := hne
    have hmv : rec.mean_value
        = some (listMean ((A.getD j []).map fun j' => xs.getD j' 0)) := by
      rw [hre]; rfl
    have hsv : rec.std_value_sq
        = some (listVarP ((A.getD j []).map fun j' => xs.getD j' 0)) := by
      rw [hre]; rfl
    have hMv : rec.max_value
        = some (listMax ((A.getD j []).map fun j' => xs.getD j' 0)) := by
      rw [hre]; rfl
    have hmin : rec.min_value
        = some (listMin ((A.getD j []).map fun j' => xs.getD j' 0)) := by
      rw [hre]; rfl
    have hvne : ((A.getD j []).map fun j' => xs.getD j' 0) ≠ [] := by
      simp only [ne_eq, List.map_eq_nil_iff]
      intro h0
      apply hne'
      rw [h0]
      rfl
    refine ⟨?_, ?_, ?_, ?_, ?_, ?_⟩
    · rw [hvc, hsid, List.length_map]
    · rw [hvc]
      exact Nat.one_le_iff_ne_zero.mpr hne'
    · rw [hsid, hvc]
      refine ⟨_, hmv, ?_⟩
      rw [← List.length_map (A.getD j []) fun j' => xs.getD j' 0]
      exact listMean_spec hvne
    · rw [hsid]
      refine ⟨_, hsv, ?_⟩
      rw [← List.length_map (A.getD j []) fun j' => xs.getD j' 0]
      exact listVarP_spec hvne
    · rw [hsid]
      exact ⟨_, hMv, (listMax_spec hvne).1, (listMax_spec hvne).2⟩
    · rw [hsid]
      exact ⟨_, hmin, (listMin_spec hvne).1, (listMin_spec hvne).2⟩
  · intro seeds A radius rec hrec
    rcases List.mem_filterMap.mp hrec with ⟨⟨j, s⟩, hmem, hro⟩
    obtain ⟨hne, hre⟩ := recordOf_eq_some hro
    have hvc : rec.voxel_count = (A.getD j []).length := by rw [hre]
    have hsid : rec.seed_id = j := by rw [hre]
    exact ⟨by rw [hvc, hsid], by rw [hre]; rfl, by rw [hre]; rfl,
      by rw [hre]; rfl, by rw [hre]; rfl⟩

/-- C4: when one coordinate file of the batch is unreadable or lacks a
required X/Y/Z column, it contributes no rows, and the final table is
exactly the concatenation of the per-file results of the remaining files —
the bad file never aborts the others (the embedded batch is a total
function of the environment). -/
theorem C4_bad_file_contributes_nothing (cfg : BZConfig) (env : Env)
    (f0 : String) (hbad : fileUnreadableOrMissingCols env f0 = true) :
    process_coordinate_files cfg env
      = (if (get_file_list env.coordListing [".csv"]).isEmpty
            || (get_file_list env.imageListing [".nii.gz", ".nii"]).isEmpty then
           []
         else
           ((get_file_list env.coordListing [".csv"]).filter
               fun f => f != f0).flatMap
             (perFileRecords cfg env
               ((get_file_list env.imageListing [".nii.gz", ".nii"]).headD ""))) := by
  unfold process_coordinate_files
  dsimp only
  by_cases hc : ((get_file_list env.coordListing [".csv"]).isEmpty
      || (get_file_list env.imageListing [".nii.gz", ".nii"]).isEmpty) = true
  · rw [if_pos hc, if_pos hc]
  · rw [if_neg hc, if_neg hc]
    exact flatMap_filter_ne _ f0 (perFileRecords_of_bad cfg env _ f0 hbad) _

/-- C9: row order of the final table.  (a) within one (file, radius) table
the seed_ids are strictly increasing — seed order as read, no duplicate
rows for one seed; (b) each record's seed_id is the ordinal of its seed row
in the source file, and the record carries that seed's coordinates; (c) the
file list the batch iterates over is sorted — the deterministic listing
order of `get_file_list`; (d) the final table is the concatenation over
that sorted file list of the per-file tables, with no deduplication; (e)
each per-file table is the concatenation, in configured radius order, of
the per-radius record lists. -/
theorem C9_row_order :
    (∀ (seeds : List Vec3) (aff : Affinity) (radius : ℚ),
        ((buildRecords seeds aff radius).map fun rec => rec.seed_id).Pairwise (· < ·))
    ∧ (∀ (seeds : List Vec3) (aff : Affinity) (radius : ℚ)
        (rec : BufferZoneRecord), rec ∈ buildRecords seeds aff radius →
        rec.seed_id < seeds.length
          ∧ seeds.getD rec.seed_id ⟨0, 0, 0⟩ = ⟨rec.x, rec.y, rec.z⟩)
    ∧ (∀ listing patterns : List String,
        (get_file_list listing patterns).Pairwise fun a b => strLeb a b = true)
    ∧ (∀ (cfg : BZConfig) (env : Env),
        process_coordinate_files cfg env
          = if (get_file_list env.coordListing [".csv"]).isEmpty
                || (get_file_list env.imageListing [".nii.gz", ".nii"]).isEmpty then
              []
            else
              (get_file_list env.coordListing [".csv"]).flatMap
                (perFileRecords cfg env
                  ((get_file_list env.imageListing [".nii.gz", ".nii"]).headD "")))
    ∧ (∀ (cfg : BZConfig) (env : Env) (d f sid : String),
        extract_subject_id f = some sid →
        perFileRecords cfg env d f
          = cfg.radius_options.flatMap fun r =>
              (extract_buffer_zone_data cfg (env.coordContent f)
                  (env.imageContent d) (some r)).map
                fun rec => ⟨sid, rec⟩) := by
  refine ⟨?_, ?_, ?_, ?_, ?_⟩
  · intro seeds aff radius
    exact buildRecords_seedIds_pairwise aff radius seeds 0
  · intro seeds aff radius rec hrec
    rcases List.mem_filterMap.mp hrec with ⟨⟨j, s⟩, hmem, hro⟩
    obtain ⟨hne, hre⟩ := recordOf_eq_some hro
    have hsid : rec.seed_id = j := by rw [hre]
    obtain ⟨-, hlt, hgd⟩ := enumFrom_mem_getD seeds 0 j s hmem
    rw [Nat.sub_zero] at hlt hgd
    rw [hsid]
    refine ⟨hlt, ?_⟩
    rw [hgd, hre]
  · intro listing patterns
    exact sortStrings_pairwise _
  · intro cfg env
    rfl
  · intro cfg env d f sid h
    unfold perFileRecords
    rw [h]

/-- Batch configuration used by the concrete witnesses: default radius 5,
overlap flag off, a single configured radius option. -/
def cfgW : BZConfig := ⟨5, false, [5]⟩

/-- A one-seed coordinate table with the required X, Y, Z columns and the
seed at the origin. -/
def tW : CoordTable :=
  ⟨["X", "Y", "Z"],
   fun c => if c = "X" then [0] else if c = "Y" then [0] else
     if c = "Z" then [0] else []⟩

/-- A constant-intensity 2 × 2 × 2 image on the unit grid. -/
def imgW : Niimg := ⟨2, 2, 2, idAffine, fun _ _ _ => 1⟩

/-- C10, counterexample: with a valid one-seed coordinate table whose seed
sits on an active image voxel and default_radius 5, calling with radius 0
yields no record at all — in particular no nonzero voxel_count, although
the claim says the query runs at the default radius and can still match
voxels.  (The call path raises ValueError and returns an empty table.) -/
theorem C10_radius_zero_call_yields_no_record :
    extract_buffer_zone_data cfgW (some tW) (some imgW) (some 0) = [] :=
  extract_always_empty cfgW (some tW) (some imgW) (some 0)

/-- C10 as amended: a falsy radius argument (None or 0) is replaced by
default_radius before the body runs, the resolved radius is never 0 when
the default is positive — so a radius of exactly 0 never reaches any
neighbor search — but, because this call path always raises ValueError in
`_apply_mask_and_get_affinity` and returns an empty table, it never yields
any voxel_count, nonzero or otherwise. -/
theorem C10_falsy_radius_replaced_by_default :
    (∀ d : ℚ, resolveRadius none d = d ∧ resolveRadius (some 0) d = d)
    ∧ (∀ (r : Option ℚ) (d : ℚ), 0 < d → resolveRadius r d ≠ 0)
    ∧ (∀ (cfg : BZConfig) (f : Option CoordTable) (i : Option Niimg),
        extract_buffer_zone_data cfg f i none
            = extractWithRadius cfg f i cfg.default_radius
          ∧ extract_buffer_zone_data cfg f i (some 0)
            = extractWithRadius cfg f i cfg.default_radius) := by
  refine ⟨?_, ?_, ?_⟩
  · intro d
    exact ⟨rfl, by simp [resolveRadius]⟩
  · intro r d hd
    cases r with
    | none => exact ne_of_gt hd
    | some q =>
      by_cases hq : q = 0
      · subst hq
        have h1 : resolveRadius (some 0) d = d := by simp [resolveRadius]
        rw [h1]
        exact ne_of_gt hd
      · have h1 : resolveRadius (some q) d = q := by simp [resolveRadius, hq]
        rw [h1]
        exact hq
  · intro cfg f i
    refine ⟨rfl, ?_⟩
    show extractWithRadius cfg f i (resolveRadius (some 0) cfg.default_radius) = _
    congr 1

/-- C10 witness: at default 5 the falsy radius 0 resolves to 5 and, in
particular, not to 0. -/
theorem C10_falsy_radius_witness :
    resolveRadius (some 0) 5 = 5 ∧ resolveRadius (some 0) 5 ≠ 0 :=
  ⟨(C10_falsy_radius_replaced_by_default.1 5).2,
   C10_falsy_radius_replaced_by_default.2.1 (some 0) 5 (by norm_num)⟩

/-- A fully active 2 × 2 × 2 mask on the unit grid, used by the concrete
witnesses. -/
def maskW : MaskImg := ⟨2, 2, 2, idAffine, fun _ _ _ => true⟩

lemma maskCoordsW : maskCoords maskW
    = [(0, 0, 0), (0, 0, 1), (0, 1, 0), (0, 1, 1),
       (1, 0, 0), (1, 0, 1), (1, 1, 0), (1, 1, 1)] := rfl

lemma worldW :
    ([(0, 0, 0), (0, 0, 1), (0, 1, 0), (0, 1, 1),
      (1, 0, 0), (1, 0, 1), (1, 1, 0), (1, 1, 1)] : List (ℕ × ℕ × ℕ)).map
        (fun c => coord_transform maskW.affine (vecOfIdx c))
      = [⟨0, 0, 0⟩, ⟨0, 0, 1⟩, ⟨0, 1, 0⟩, ⟨0, 1, 1⟩,
         ⟨1, 0, 0⟩, ⟨1, 0, 1⟩, ⟨1, 1, 0⟩, ⟨1, 1, 1⟩] := by
  norm_num [coord_transform, vecOfIdx, maskW, idAffine]

lemma rowW1 :
    radius_neighbors_row
        [⟨0, 0, 0⟩, ⟨0, 0, 1⟩, ⟨0, 1, 0⟩, ⟨0, 1, 1⟩,
         ⟨1, 0, 0⟩, ⟨1, 0, 1⟩, ⟨1, 1, 0⟩, ⟨1, 1, 1⟩] ⟨0, 0, 0⟩ 1
      = [0, 1, 2, 4] := by
  norm_num [radius_neighbors_row, within_radius, sqdist, List.enum,
    List.enumFrom, List.filter]

lemma rowW2 :
    radius_neighbors_row
        [⟨0, 0, 0⟩, ⟨0, 0, 1⟩, ⟨0, 1, 0⟩, ⟨0, 1, 1⟩,
         ⟨1, 0, 0⟩, ⟨1, 0, 1⟩, ⟨1, 1, 0⟩, ⟨1, 1, 1⟩] ⟨0, 0, 0⟩ 2
      = [0, 1, 2, 3, 4, 5, 6, 7] := by
  norm_num [radius_neighbors_row, within_radius, sqdist, List.enum,
    List.enumFrom, List.filter]

lemma rowW3 :
    radius_neighbors_row
        [⟨0, 0, 0⟩, ⟨0, 0, 1⟩, ⟨0, 1, 0⟩, ⟨0, 1, 1⟩,
         ⟨1, 0, 0⟩, ⟨1, 0, 1⟩, ⟨1, 1, 0⟩, ⟨1, 1, 1⟩] ⟨1, 1, 1⟩ 1
      = [3, 5, 6, 7] := by
  norm_num [radius_neighbors_row, within_radius, sqdist, List.enum,
    List.enumFrom, List.filter]

lemma helperW1 :
    apply_mask_and_get_affinity [⟨0, 0, 0⟩] none 1 false (some maskW)
      = .ok ⟨none, [[0, 1, 2, 4]]⟩ := by
  simp only [apply_mask_and_get_affinity, maskCoordsW, worldW]
  simp only [List.map_cons, List.map_nil, rowW1]
  rfl

lemma helperW2 :
    apply_mask_and_get_affinity [⟨0, 0, 0⟩] none 2 false (some maskW)
      = .ok ⟨none, [[0, 1, 2, 3, 4, 5, 6, 7]]⟩ := by
  simp only [apply_mask_and_get_affinity, maskCoordsW, worldW]
  simp only [List.map_cons, List.map_nil, rowW2]
  rfl

lemma helperW3 :
    apply_mask_and_get_affinity [⟨1, 1, 1⟩] none 1 false (some maskW)
      = .ok ⟨none, [[3, 5, 6, 7]]⟩ := by
  simp only [apply_mask_and_get_affinity, maskCoordsW, worldW]
  simp only [List.map_cons, List.map_nil, rowW3]
  rfl

/-- Batch environment used by the C4/C9 witnesses: two coordinate files of
which one is unreadable, and one image. -/
def envW : Env :=
  ⟨["b1234.csv", "a1234.csv"],
   fun f => if f = "b1234.csv" then some tW else none,
   ["img.nii"],
   fun _ => some imgW⟩

/-- The record the aggregation emits for one seed matching the two voxels
with intensities 1 and 3 at radius 2. -/
def recW8 : BufferZoneRecord :=
  ⟨0, 0, 0, 0, 2, 2, some 2, some 1, some 3, some 1⟩

lemma buildRecordsW8 :
    buildRecords [⟨0, 0, 0⟩] ⟨some [1, 3], [[0, 1]]⟩ 2 = [recW8] := by
  norm_num [buildRecords, recordOf, mkStats, listMean, listVarP, listMax,
    listMin, recW8, List.enum, List.enumFrom, List.filterMap_cons,
    List.getD, max_def, min_def]

/-- The record the aggregation emits for one seed matching one voxel with
no intensity row supplied. -/
def recW9 : BufferZoneRecord := ⟨0, 0, 0, 0, 1, 1, none, none, none, none⟩

lemma memW9 : recW9 ∈ buildRecords [⟨0, 0, 0⟩] ⟨none, [[0]]⟩ 1 := by decide

/-- C1 witness: on the full 2 × 2 × 2 unit-grid mask, the count reported
for the origin seed at radius 1 agrees with the brute-force count. -/
theorem C1_witness :
    reportedVoxelCount (buildRecords [⟨0, 0, 0⟩] ⟨none, [[0, 1, 2, 4]]⟩ 1) 0
      = bruteForceCount maskW ⟨0, 0, 0⟩ 1 :=
  (C1_voxel_count_equals_bruteforce 1 (by norm_num) [⟨0, 0, 0⟩] false).1 maskW
    ⟨none, [[0, 1, 2, 4]]⟩ helperW1 0 (by norm_num)

/-- C2 witness: a concrete valid coordinate table and loadable image still
produce an empty result table. -/
theorem C2_witness :
    extract_buffer_zone_data cfgW (some tW) (some imgW) none = [] :=
  C2_extract_path_always_empty.2 cfgW tW imgW none (by decide)

/-- C3 witness: with one seed matching one voxel, a record for seed 0
exists, and every emitted record has voxel_count ≥ 1. -/
theorem C3_witness :
    ((∃ rec ∈ buildRecords [⟨0, 0, 0⟩] ⟨none, [[0]]⟩ 1, rec.seed_id = 0)
        ↔ 1 ≤ ((⟨none, [[0]]⟩ : Affinity).A.getD 0 []).length)
      ∧ ∀ rec ∈ buildRecords [⟨0, 0, 0⟩] ⟨none, [[0]]⟩ 1, 1 ≤ rec.voxel_count :=
  C3_record_iff_matched [⟨0, 0, 0⟩] ⟨none, [[0]]⟩ 1 0 (by decide)

/-- C4 witness: with the unreadable file `a1234.csv` in the batch, the
output equals the concatenation over the remaining files. -/
theorem C4_witness :
    process_coordinate_files cfgW envW
      = (if (get_file_list envW.coordListing [".csv"]).isEmpty
            || (get_file_list envW.imageListing [".nii.gz", ".nii"]).isEmpty then
           []
         else
           ((get_file_list envW.coordListing [".csv"]).filter
               fun f => f != "a1234.csv").flatMap
             (perFileRecords cfgW envW
               ((get_file_list envW.imageListing [".nii.gz", ".nii"]).headD ""))) :=
  C4_bad_file_contributes_nothing cfgW envW "a1234.csv" (by decide)

/-- C6 witness: querying the two seeds together yields exactly the
concatenation of their independent single-seed query rows. -/
theorem C6_witness :
    apply_mask_and_get_affinity ([⟨0, 0, 0⟩] ++ [⟨1, 1, 1⟩]) none 1 false
        (some maskW)
      = .ok ⟨(⟨none, [[0, 1, 2, 4]]⟩ : Affinity).X,
             (⟨none, [[0, 1, 2, 4]]⟩ : Affinity).A
               ++ (⟨none, [[3, 5, 6, 7]]⟩ : Affinity).A⟩ :=
  C6_allow_overlap_never_consulted.2.2 [⟨0, 0, 0⟩] [⟨1, 1, 1⟩] maskW 1 false
    ⟨none, [[0, 1, 2, 4]]⟩ ⟨none, [[3, 5, 6, 7]]⟩ helperW1 helperW3

/-- C7 witness: the origin seed's count at radius 1 is at most its count at
radius 2 on the same mask. -/
theorem C7_witness :
    reportedVoxelCount (buildRecords [⟨0, 0, 0⟩] ⟨none, [[0, 1, 2, 4]]⟩ 1) 0
      ≤ reportedVoxelCount
          (buildRecords [⟨0, 0, 0⟩] ⟨none, [[0, 1, 2, 3, 4, 5, 6, 7]]⟩ 2) 0 :=
  C7_voxel_count_monotone_in_radius maskW [⟨0, 0, 0⟩] 1 2 false false
    ⟨none, [[0, 1, 2, 4]]⟩ ⟨none, [[0, 1, 2, 3, 4, 5, 6, 7]]⟩ (by norm_num)
    helperW1 helperW2 0

/-- C8 witness: the statistics characterisation at the concrete record for
intensities 1 and 3. -/
theorem C8_witness :
    recW8.voxel_count
        = ((([[0, 1]] : List (List ℕ)).getD recW8.seed_id []).map
            fun j => ([1, 3] : List ℚ).getD j 0).length
      ∧ 1 ≤ recW8.voxel_count
      ∧ (∃ mv, recW8.mean_value = some mv
          ∧ mv * (recW8.voxel_count : ℚ)
              = ((([[0, 1]] : List (List ℕ)).getD recW8.seed_id []).map
                  fun j => ([1, 3] : List ℚ).getD j 0).sum)
      ∧ (∃ sv, recW8.std_value_sq = some sv
          ∧ sv * ((([[0, 1]] : List (List ℕ)).getD recW8.seed_id []).length : ℚ) ^ 2
              = ((([[0, 1]] : List (List ℕ)).getD recW8.seed_id []).length : ℚ)
                  * (((([[0, 1]] : List (List ℕ)).getD recW8.seed_id []).map
                      fun j => ([1, 3] : List ℚ).getD j 0).map fun v => v ^ 2).sum
                - ((([[0, 1]] : List (List ℕ)).getD recW8.seed_id []).map
                    fun j => ([1, 3] : List ℚ).getD j 0).sum ^ 2)
      ∧ (∃ Mv, recW8.max_value = some Mv
          ∧ Mv ∈ (([[0, 1]] : List (List ℕ)).getD recW8.seed_id []).map
              (fun j => ([1, 3] : List ℚ).getD j 0)
          ∧ ∀ v ∈ (([[0, 1]] : List (List ℕ)).getD recW8.seed_id []).map
              fun j => ([1, 3] : List ℚ).getD j 0, v ≤ Mv)
      ∧ (∃ mv, recW8.min_value = some mv
          ∧ mv ∈ (([[0, 1]] : List (List ℕ)).getD recW8.seed_id []).map
              (fun j => ([1, 3] : List ℚ).getD j 0)
          ∧ ∀ v ∈ (([[0, 1]] : List (List ℕ)).getD recW8.seed_id []).map
              fun j => ([1, 3] : List ℚ).getD j 0, mv ≤ v) :=
  C8_statistics_of_matched_voxels.1 [⟨0, 0, 0⟩] [1, 3] [[0, 1]] 2 recW8
    (by rw [buildRecordsW8]; exact List.mem_singleton_self _)

/-- C9 witness: the emitted record's seed_id is the ordinal of its seed and
carries that seed's coordinates; the per-file table for `b1234.csv` is the
radius-ordered concatenation tagged with subject id 1234. -/
theorem C9_witness :
    (recW9.seed_id < ([⟨0, 0, 0⟩] : List Vec3).length
        ∧ ([⟨0, 0, 0⟩] : List Vec3).getD recW9.seed_id ⟨0, 0, 0⟩
            = ⟨recW9.x, recW9.y, recW9.z⟩)
      ∧ perFileRecords cfgW envW "img.nii" "b1234.csv"
          = cfgW.radius_options.flatMap fun r =>
              (extract_buffer_zone_data cfgW (envW.coordContent "b1234.csv")
                  (envW.imageContent "img.nii") (some r)).map
                fun rec => ⟨"1234", rec⟩ :=
  ⟨C9_row_order.2.1 [⟨0, 0, 0⟩] ⟨none, [[0]]⟩ 1 recW9 memW9,
   C9_row_order.2.2.2.2 cfgW envW "img.nii" "b1234.csv" "1234" (by decide)⟩
